import Mathlib

/-!
# Cookie session store (package cookie, file cookie.go)

A shallow embedding of the cookie-backed session store.  The manager
(managerStore) creates, renews and deletes session handles by reading the
session cookie of the inbound request and writing Set-Cookie headers on the
response; a handle (store) is a key/value bag that Save serialises through
the codec into a fresh cookie.

Modelling conventions.

* Every operation returns, next to its Go results, the ordered list of
  external calls it performed (http.SetCookie on the response writer, codec
  Encode, codec Decode).  What an operation "writes" is read off that list.
* The wall clock is an input: now is the value time.Now() yields inside the
  call.  Each operation reads the clock at most once.
* Go int64 values are integers; the wrap-around of int64 multiplication and
  of the conversion to int is explicit.  The width of int is a parameter
  (32 or 64 on the Go targets).
* The reader/writer lock of a handle is not modelled: operations are
  sequential.
-/

namespace CookieStore

/-! ## Machine integers and time -/

/-- Two's-complement wrap of an integer to a signed word of the given width. -/
def wrapSigned (bits : Nat) (x : Int) : Int :=
  (x + 2 ^ (bits - 1)) % 2 ^ bits - 2 ^ (bits - 1)

/-- The values a signed word of the given width holds. -/
def fitsSigned (bits : Nat) (x : Int) : Prop :=
  -(2 ^ (bits - 1)) ≤ x ∧ x < 2 ^ (bits - 1)

instance (bits : Nat) (x : Int) : Decidable (fitsSigned bits x) := by
  unfold fitsSigned
  exact inferInstance

/-- The conversion int(x) of an int64 on a target whose int has the given width. -/
def goInt (bits : Nat) (x : Int) : Int := wrapSigned bits x

/-- The constant time.Second: a Duration counts nanoseconds in an int64. -/
def Second : Int := 1000000000

/-- The expression time.Duration(expired) * time.Second: an int64 product,
which wraps around. -/
def secondsDuration (expired : Int) : Int := wrapSigned 64 (expired * Second)

/-- The expiry values whose duration in nanoseconds fits the int64 of a
Duration (about 292 years either way). -/
def durationFits (expired : Int) : Prop := fitsSigned 64 (expired * Second)

instance (expired : Int) : Decidable (durationFits expired) := by
  unfold durationFits
  exact inferInstance

/-- An instant (time.Time), as a count of nanoseconds on a fixed time line. -/
structure Time where
  nsec : Int
deriving DecidableEq, Repr

/-- The method Time.Add: the instant d nanoseconds later. -/
def Time.Add (t : Time) (d : Int) : Time := ⟨t.nsec + d⟩

/-- The method Time.Before. -/
def Time.Before (t u : Time) : Prop := t.nsec < u.nsec

instance (t u : Time) : Decidable (t.Before u) := by
  unfold Time.Before
  exact inferInstance

/-! ## Errors, maps, cookies, requests -/

/-- A non-nil Go error value; a nil error is none. -/
structure GoError where
  msg : String
deriving DecidableEq, Repr

/-- A Go map[string]string, as an association list read through mapGet. -/
abbrev Values := List (String × String)

/-- The read values[key]: the entry of the key, if any. -/
def mapGet : Values → String → Option String
  | [], _ => none
  | (k, v) :: rest, key => if k = key then some v else mapGet rest key

/-- The statement delete(values, key). -/
def mapDelete : Values → String → Values
  | [], _ => []
  | (k, v) :: rest, key => if k = key then mapDelete rest key else (k, v) :: mapDelete rest key

/-- The assignment values[key] = value. -/
def mapSet (m : Values) (key value : String) : Values := (key, value) :: mapDelete m key

/-- The fields of http.Cookie this package reads or sets; a field left out of
a composite literal has its zero value. -/
structure Cookie where
  Name : String := ""
  Value : String := ""
  Path : String := ""
  Secure : Bool := false
  HttpOnly : Bool := false
  MaxAge : Int := 0
  Expires : Time := ⟨0⟩
deriving DecidableEq, Repr

/-- An inbound request, as the cookies parsed from its Cookie header. -/
structure Request where
  cookies : List Cookie
deriving DecidableEq, Repr

/-- The method Request.Cookie: the first cookie of that name, none standing
for http.ErrNoCookie. -/
def Request.Cookie (r : Request) (name : String) : Option Cookie :=
  r.cookies.find? (fun c => decide (c.Name = name))

/-- A response writer, known by its identity: what is written to it is
recorded in the list of calls. -/
structure ResponseWriter where
  id : Nat
deriving DecidableEq, Repr

/-- The context of a call: the request and the response writer the host
framework attached to it, each possibly missing. -/
structure Context where
  req : Option Request
  res : Option ResponseWriter
deriving DecidableEq, Repr

/-- The lookup session.FromReqContext. -/
def FromReqContext (ctx : Context) : Option Request := ctx.req

/-- The lookup session.FromResContext. -/
def FromResContext (ctx : Context) : Option ResponseWriter := ctx.res

/-- The external calls an operation performs: http.SetCookie(res, cookie)
with the cookie as passed (the header text the library derives from it is
outside the model), and the two codec methods with their inputs. -/
inductive Event where
  | setCookie (res : ResponseWriter) (cookie : Cookie)
  | encode (sid : String) (values : Values)
  | decode (sid : String) (value : String)
deriving DecidableEq, Repr

/-- The Go results of an operation together with the calls it made, in order. -/
structure Outcome (α : Type) where
  ret : α
  calls : List Event

/-- The cookies handed to http.SetCookie, in order. -/
def written : List Event → List Cookie
  | [] => []
  | Event.setCookie _ c :: rest => c :: written rest
  | _ :: rest => written rest

/-- Whether any call went to the codec. -/
def codecInvoked : List Event → Bool
  | [] => false
  | Event.setCookie _ _ :: rest => codecInvoked rest
  | _ :: _ => true

/-- The codec (securecookie.SecureCookie) as a black box.  Encode returns the
token or an error; Decode returns an error, or the map it stored in the
destination, none when it left the destination nil. -/
structure SecureCookie where
  Encode : String → Values → Except GoError String
  Decode : String → String → Except GoError (Option Values)

/-- Modelled from the spec: the options record is declared outside cookie.go;
these are the two fields the operations of cookie.go read (the cookie name
and the secure flag); the remaining ones only configure the codec. -/
structure options where
  cookieName : String
  secure : Bool
deriving DecidableEq, Repr

/-! ## The manager and the handle -/

/-- The type managerStore. -/
structure managerStore where
  opts : options
  cookie : SecureCookie

/-- The type store, a session handle. -/
structure store where
  opts : options
  sid : String
  ctx : Context
  expired : Int
  values : Values
  cookie : SecureCookie

/-- The method managerStore.Create. -/
def managerStore.Create (s : managerStore) (ctx : Context) (sid : String) (expired : Int) :
    Outcome (Option store × Option GoError) :=
  let values : Values := []
  ⟨(some { opts := s.opts, ctx := ctx, sid := sid, cookie := s.cookie,
           expired := expired, values := values }, none), []⟩

/-- The method managerStore.Update. -/
def managerStore.Update (s : managerStore) (bits : Nat) (now : Time) (ctx : Context)
    (sid : String) (expired : Int) : Outcome (Option store × Option GoError) :=
  match FromReqContext ctx with
  | none => ⟨(none, none), []⟩
  | some req =>
    match req.Cookie s.opts.cookieName with
    | none => s.Create ctx sid expired
    | some cookie =>
      match FromResContext ctx with
      | none => ⟨(none, none), []⟩
      | some res =>
        let cookie := { cookie with
          Expires := now.Add (secondsDuration expired), MaxAge := goInt bits expired }
        let calls := [Event.setCookie res cookie, Event.decode sid cookie.Value]
        match s.cookie.Decode sid cookie.Value with
        | .error err => ⟨(none, some err), calls⟩
        | .ok decoded =>
          let values : Values := match decoded with
            | none => []
            | some values => values
          ⟨(some { opts := s.opts, ctx := ctx, sid := sid, cookie := s.cookie,
                   expired := expired, values := values }, none), calls⟩

/-- The method managerStore.Check. -/
def managerStore.Check (s : managerStore) (ctx : Context) (_sid : String) :
    Outcome (Bool × Option GoError) :=
  match FromReqContext ctx with
  | none => ⟨(false, none), []⟩
  | some req => ⟨((req.Cookie s.opts.cookieName).isSome, none), []⟩

/-- The method managerStore.Delete. -/
def managerStore.Delete (s : managerStore) (now : Time) (ctx : Context) (sid : String) :
    Outcome (Option GoError) :=
  let checked := s.Check ctx sid
  match checked.ret with
  | (_, some err) => ⟨some err, checked.calls⟩
  | (false, none) => ⟨none, checked.calls⟩
  | (true, none) =>
    match FromResContext ctx with
    | none => ⟨none, checked.calls⟩
    | some res =>
      let cookie : Cookie :=
        { Name := s.opts.cookieName, Path := "/", HttpOnly := true, Expires := now, MaxAge := -1 }
      ⟨none, checked.calls ++ [Event.setCookie res cookie]⟩

/-- The method managerStore.Close. -/
def managerStore.Close (_s : managerStore) : Option GoError := none

/-- The method store.Context. -/
def store.Context (s : store) : Context := s.ctx

/-- The method store.SessionID. -/
def store.SessionID (s : store) : String := s.sid

/-- The method store.Set; the result is the handle after the call. -/
def store.Set (s : store) (key value : String) : store :=
  { s with values := mapSet s.values key value }

/-- The method store.Get. -/
def store.Get (s : store) (key : String) : String × Bool :=
  match mapGet s.values key with
  | some val => (val, true)
  | none => ("", false)

/-- The method store.Delete: the value returned and the handle after the call. -/
def store.Delete (s : store) (key : String) : String × store :=
  match mapGet s.values key with
  | some v => (v, { s with values := mapDelete s.values key })
  | none => ("", s)

/-- The method store.Save. -/
def store.Save (s : store) (bits : Nat) (now : Time) : Outcome (Option GoError) :=
  match s.cookie.Encode s.sid s.values with
  | .error err => ⟨some err, [Event.encode s.sid s.values]⟩
  | .ok encoded =>
    let cookie : Cookie :=
      { Name := s.opts.cookieName, Value := encoded, Path := "/", Secure := s.opts.secure,
        HttpOnly := true, MaxAge := goInt bits s.expired,
        Expires := now.Add (secondsDuration s.expired) }
    match FromResContext s.Context with
    | none => ⟨none, [Event.encode s.sid s.values]⟩
    | some res => ⟨none, [Event.encode s.sid s.values, Event.setCookie res cookie]⟩

/-- The method store.Flush: the handle after the call and what Save returned. -/
def store.Flush (s : store) (bits : Nat) (now : Time) : store × Outcome (Option GoError) :=
  let s : store := { s with values := [] }
  (s, s.Save bits now)

/-! ## A small concrete codec and concrete inputs -/

/-- A codec with two valid tokens, both for session abc: t0 carries the empty
map and t1 the map uid = 42.  Every other encode or decode fails. -/
def tableCodec : SecureCookie where
  Encode sid values :=
    if sid = "abc" ∧ values = [("uid", "42")] then .ok "t1"
    else if sid = "abc" ∧ values = [] then .ok "t0"
    else .error ⟨"securecookie: the value is too long"⟩
  Decode sid value :=
    if sid = "abc" ∧ value = "t1" then .ok (some [("uid", "42")])
    else if sid = "abc" ∧ value = "t0" then .ok none
    else .error ⟨"securecookie: the value is not valid"⟩

/-- A manager over the table codec, cookie name go_session_id. -/
def demoManager : managerStore :=
  { opts := { cookieName := "go_session_id", secure := false }, cookie := tableCodec }

/-- A context with a response writer and a request without cookies. -/
def firstContact : Context := { req := some ⟨[]⟩, res := some ⟨1⟩ }

/-- A context whose request presents the token t1 under the session cookie name. -/
def returning : Context :=
  { req := some ⟨[{ Name := "go_session_id", Value := "t1" }]⟩, res := some ⟨2⟩ }

/-- A context whose request presents a corrupted token. -/
def tampered : Context :=
  { req := some ⟨[{ Name := "go_session_id", Value := "t1x" }]⟩, res := some ⟨3⟩ }

/-- A context with the session cookie in the request and no response writer. -/
def noResponse : Context :=
  { req := some ⟨[{ Name := "go_session_id", Value := "t1" }]⟩, res := none }

/-- A handle on a context without response writer whose map the table codec
refuses to encode. -/
def unencodable : store :=
  { opts := demoManager.opts, sid := "abc", ctx := noResponse, expired := 3600,
    values := [("lang", "en")], cookie := tableCodec }

/-- An expiry of a little over 292 years: its count of nanoseconds exceeds
the largest int64. -/
def farExpiry : Int := 9223372037

/-- An empty handle for session abc with the far expiry, on a context with a
response writer. -/
def farHandle : store :=
  { opts := demoManager.opts, sid := "abc", ctx := firstContact, expired := farExpiry,
    values := [], cookie := tableCodec }

/-- A handle for session abc holding uid = 42 and a second entry, which the
table codec refuses to encode. -/
def fullHandle : store :=
  { opts := demoManager.opts, sid := "abc", ctx := firstContact, expired := 3600,
    values := [("uid", "42"), ("lang", "en")], cookie := tableCodec }

/-- The codec round-trips: a token Encode produced decodes, under the same
session ID, to a map with the same entries (a destination left nil counts as
the empty map). -/
def RoundTrips (c : SecureCookie) : Prop :=
  ∀ (sid : String) (m : Values) (token : String), c.Encode sid m = .ok token →
    ∃ r, c.Decode sid token = .ok r ∧ ∀ k, mapGet (r.getD []) k = mapGet m k

/-! ## Lemmas on the primitives -/

theorem mapGet_mapDelete_self (m : Values) (key : String) : mapGet (mapDelete m key) key = none := by
  induction m with
  | nil => rfl
  | cons p rest ih =>
    obtain ⟨k, v⟩ := p
    by_cases h : k = key
    · simp [mapDelete, h, ih]
    · simp [mapDelete, mapGet, h, ih]

theorem mapGet_mapDelete_other (m : Values) (key other : String) (hne : other ≠ key) :
    mapGet (mapDelete m key) other = mapGet m other := by
  induction m with
  | nil => rfl
  | cons p rest ih =>
    obtain ⟨k, v⟩ := p
    simp only [mapDelete]
    split_ifs with h
    · have hk : ¬ k = other := fun hko => hne (hko.symm.trans h)
      simp only [mapGet, hk, if_false, ih]
    · simp only [mapGet, ih]

theorem mapDelete_absent (m : Values) (key : String) (habs : mapGet m key = none) :
    mapDelete m key = m := by
  induction m with
  | nil => rfl
  | cons p rest ih =>
    obtain ⟨k, v⟩ := p
    by_cases h : k = key
    · simp [mapGet, h] at habs
    · simp [mapGet, h] at habs
      simp [mapDelete, h, ih habs]

theorem mapGet_mapSet_self (m : Values) (key value : String) :
    mapGet (mapSet m key value) key = some value := by
  simp [mapSet, mapGet]

theorem request_cookie_none (req : Request) (name : String)
    (hno : ∀ c ∈ req.cookies, c.Name ≠ name) : req.Cookie name = none := by
  unfold Request.Cookie
  rw [List.find?_eq_none]
  intro c hc
  simpa using hno c hc

theorem request_cookie_name (req : Request) (name : String) (c : Cookie)
    (h : req.Cookie name = some c) : c.Name = name ∧ c ∈ req.cookies := by
  unfold Request.Cookie at h
  have h1 := List.find?_some h
  have h2 := List.mem_of_find?_eq_some h
  exact ⟨by simpa using h1, h2⟩

theorem wrapSigned_of_fits (bits : Nat) (x : Int) (hbits : 0 < bits) (hx : fitsSigned bits x) :
    wrapSigned bits x = x := by
  obtain ⟨hlo, hhi⟩ := hx
  have hpow : (2 : Int) ^ bits = 2 * 2 ^ (bits - 1) := by
    obtain ⟨n, rfl⟩ : ∃ n, bits = n + 1 := ⟨bits - 1, by omega⟩
    simp [pow_succ, mul_comm]
  unfold wrapSigned
  rw [Int.emod_eq_of_lt (by linarith) (by linarith)]
  ring

theorem tableCodec_roundTrips : RoundTrips tableCodec := by
  intro sid m token h
  simp only [tableCodec] at h ⊢
  split_ifs at h with h1 h2
  · obtain ⟨rfl, rfl⟩ := h1
    cases h
    exact ⟨some [("uid", "42")], by simp, fun k => rfl⟩
  · obtain ⟨rfl, rfl⟩ := h2
    cases h
    exact ⟨none, by simp, fun k => rfl⟩

theorem goInt_of_fits (bits : Nat) (x : Int) (hbits : 0 < bits) (hx : fitsSigned bits x) :
    goInt bits x = x :=
  wrapSigned_of_fits bits x hbits hx

theorem secondsDuration_of_fits (expired : Int) (h : durationFits expired) :
    secondsDuration expired = expired * Second :=
  wrapSigned_of_fits 64 (expired * Second) (by decide) h

/-! ## The paths of Update, Save and Delete -/

theorem update_no_request (s : managerStore) (bits : Nat) (now : Time) (ctx : Context)
    (sid : String) (expired : Int) (hreq : FromReqContext ctx = none) :
    s.Update bits now ctx sid expired = ⟨(none, none), []⟩ := by
  simp only [managerStore.Update, hreq]

theorem update_no_cookie (s : managerStore) (bits : Nat) (now : Time) (ctx : Context)
    (sid : String) (expired : Int) (req : Request) (hreq : FromReqContext ctx = some req)
    (hc : req.Cookie s.opts.cookieName = none) :
    s.Update bits now ctx sid expired = s.Create ctx sid expired := by
  simp only [managerStore.Update, hreq, hc]

theorem update_no_response (s : managerStore) (bits : Nat) (now : Time) (ctx : Context)
    (sid : String) (expired : Int) (req : Request) (cookie : Cookie)
    (hreq : FromReqContext ctx = some req) (hc : req.Cookie s.opts.cookieName = some cookie)
    (hres : FromResContext ctx = none) :
    s.Update bits now ctx sid expired = ⟨(none, none), []⟩ := by
  simp only [managerStore.Update, hreq, hc, hres]

theorem update_decode_error (s : managerStore) (bits : Nat) (now : Time) (ctx : Context)
    (sid : String) (expired : Int) (req : Request) (cookie : Cookie) (res : ResponseWriter)
    (err : GoError)
    (hreq : FromReqContext ctx = some req) (hc : req.Cookie s.opts.cookieName = some cookie)
    (hres : FromResContext ctx = some res)
    (hd : s.cookie.Decode sid cookie.Value = .error err) :
    s.Update bits now ctx sid expired =
      ⟨(none, some err),
        [Event.setCookie res { cookie with
            Expires := now.Add (secondsDuration expired), MaxAge := goInt bits expired },
          Event.decode sid cookie.Value]⟩ := by
  simp only [managerStore.Update, hreq, hc, hres, hd]

theorem update_decode_ok (s : managerStore) (bits : Nat) (now : Time) (ctx : Context)
    (sid : String) (expired : Int) (req : Request) (cookie : Cookie) (res : ResponseWriter)
    (decoded : Option Values)
    (hreq : FromReqContext ctx = some req) (hc : req.Cookie s.opts.cookieName = some cookie)
    (hres : FromResContext ctx = some res)
    (hd : s.cookie.Decode sid cookie.Value = .ok decoded) :
    s.Update bits now ctx sid expired =
      ⟨(some { opts := s.opts, ctx := ctx, sid := sid, cookie := s.cookie, expired := expired,
               values := decoded.getD [] }, none),
        [Event.setCookie res { cookie with
            Expires := now.Add (secondsDuration expired), MaxAge := goInt bits expired },
          Event.decode sid cookie.Value]⟩ := by
  simp only [managerStore.Update, hreq, hc, hres, hd]
  cases decoded <;> rfl

theorem save_encode_error (s : store) (bits : Nat) (now : Time) (err : GoError)
    (he : s.cookie.Encode s.sid s.values = .error err) :
    s.Save bits now = ⟨some err, [Event.encode s.sid s.values]⟩ := by
  simp only [store.Save, he]

theorem save_no_response (s : store) (bits : Nat) (now : Time) (encoded : String)
    (he : s.cookie.Encode s.sid s.values = .ok encoded)
    (hres : FromResContext s.Context = none) :
    s.Save bits now = ⟨none, [Event.encode s.sid s.values]⟩ := by
  simp only [store.Save, he, hres]

theorem save_written (s : store) (bits : Nat) (now : Time) (encoded : String)
    (res : ResponseWriter)
    (he : s.cookie.Encode s.sid s.values = .ok encoded)
    (hres : FromResContext s.Context = some res) :
    s.Save bits now =
      ⟨none, [Event.encode s.sid s.values,
        Event.setCookie res
          { Name := s.opts.cookieName, Value := encoded, Path := "/", Secure := s.opts.secure,
            HttpOnly := true, MaxAge := goInt bits s.expired,
            Expires := now.Add (secondsDuration s.expired) }]⟩ := by
  simp only [store.Save, he, hres]

theorem check_ret (s : managerStore) (ctx : Context) (sid : String) :
    (s.Check ctx sid).calls = [] ∧ (s.Check ctx sid).ret.2 = none ∧
    ((s.Check ctx sid).ret.1 = true ↔
      ∃ req c, FromReqContext ctx = some req ∧ req.Cookie s.opts.cookieName = some c) := by
  unfold managerStore.Check
  cases hreq : FromReqContext ctx with
  | none => simp
  | some req =>
    cases hc : req.Cookie s.opts.cookieName with
    | none => simp [hc]
    | some c => simp [hc]

theorem delete_absent (s : managerStore) (now : Time) (ctx : Context) (sid : String)
    (habs : (s.Check ctx sid).ret.1 = false) : s.Delete now ctx sid = ⟨none, []⟩ := by
  obtain ⟨hcalls, herr, _⟩ := check_ret s ctx sid
  have hret : (s.Check ctx sid).ret = (false, none) := Prod.ext habs herr
  simp only [managerStore.Delete, hret, hcalls]

theorem delete_no_response (s : managerStore) (now : Time) (ctx : Context) (sid : String)
    (hres : FromResContext ctx = none) : s.Delete now ctx sid = ⟨none, []⟩ := by
  obtain ⟨hcalls, herr, _⟩ := check_ret s ctx sid
  cases hb : (s.Check ctx sid).ret.1 with
  | false => exact delete_absent s now ctx sid hb
  | true =>
    have hret : (s.Check ctx sid).ret = (true, none) := Prod.ext hb herr
    simp only [managerStore.Delete, hret, hcalls, hres]

theorem delete_written (s : managerStore) (now : Time) (ctx : Context) (sid : String)
    (res : ResponseWriter) (hpres : (s.Check ctx sid).ret.1 = true)
    (hres : FromResContext ctx = some res) :
    s.Delete now ctx sid =
      ⟨none, [Event.setCookie res
        { Name := s.opts.cookieName, Path := "/", HttpOnly := true, Expires := now,
          MaxAge := -1 }]⟩ := by
  obtain ⟨hcalls, herr, _⟩ := check_ret s ctx sid
  have hret : (s.Check ctx sid).ret = (true, none) := Prod.ext hpres herr
  simp only [managerStore.Delete, hret, hcalls, hres, List.nil_append]

theorem delete_cases (s : managerStore) (now : Time) (ctx : Context) (sid : String) :
    s.Delete now ctx sid = ⟨none, []⟩ ∨
    ∃ res, (s.Check ctx sid).ret.1 = true ∧ FromResContext ctx = some res ∧
      s.Delete now ctx sid =
        ⟨none, [Event.setCookie res
          { Name := s.opts.cookieName, Path := "/", HttpOnly := true, Expires := now,
            MaxAge := -1 }]⟩ := by
  cases hb : (s.Check ctx sid).ret.1 with
  | false => exact Or.inl (delete_absent s now ctx sid hb)
  | true =>
    cases hres : FromResContext ctx with
    | none => exact Or.inl (delete_no_response s now ctx sid hres)
    | some res => exact Or.inr ⟨res, rfl, rfl, delete_written s now ctx sid res hb hres⟩

/-! ## The claims -/

/-- C1: Update returns a non-nil error exactly when the context carries a
request, the request carries a cookie of the configured name, the context
carries a response writer and the codec fails to decode that cookie's value
under the session ID; the error is then the codec's error and the handle is
nil.  In every other case the error is nil. -/
theorem update_error_iff_decode_fails (s : managerStore) (bits : Nat) (now : Time)
    (ctx : Context) (sid : String) (expired : Int) :
    ((s.Update bits now ctx sid expired).ret.2 ≠ none ↔
      ∃ req cookie res err, FromReqContext ctx = some req ∧
        req.Cookie s.opts.cookieName = some cookie ∧ FromResContext ctx = some res ∧
        s.cookie.Decode sid cookie.Value = .error err) ∧
    (∀ req cookie res err, FromReqContext ctx = some req →
        req.Cookie s.opts.cookieName = some cookie → FromResContext ctx = some res →
        s.cookie.Decode sid cookie.Value = .error err →
        (s.Update bits now ctx sid expired).ret = (none, some err)) := by
  cases hreq : FromReqContext ctx with
  | none => simp [update_no_request s bits now ctx sid expired hreq]
  | some req =>
    cases hc : req.Cookie s.opts.cookieName with
    | none =>
      rw [update_no_cookie s bits now ctx sid expired req hreq hc]
      refine ⟨by simp [managerStore.Create, hc], ?_⟩
      intro req1 c1 r1 e1 h1 h2
      cases h1
      rw [hc] at h2
      cases h2
    | some cookie =>
      cases hres : FromResContext ctx with
      | none =>
        rw [update_no_response s bits now ctx sid expired req cookie hreq hc hres]
        simp
      | some res =>
        cases hd : s.cookie.Decode sid cookie.Value with
        | error err =>
          rw [update_decode_error s bits now ctx sid expired req cookie res err hreq hc hres hd]
          refine ⟨by simp [hc, hd], ?_⟩
          intro req1 c1 r1 e1 h1 h2 _ h4
          cases h1
          rw [hc] at h2
          cases h2
          rw [hd] at h4
          cases h4
          rfl
        | ok decoded =>
          rw [update_decode_ok s bits now ctx sid expired req cookie res decoded hreq hc hres hd]
          refine ⟨by simp [hc, hd], ?_⟩
          intro req1 c1 r1 e1 h1 h2 _ h4
          cases h1
          rw [hc] at h2
          cases h2
          rw [hd] at h4
          cases h4

/-- An instance of C1 on a request that presents a corrupted token. -/
theorem update_error_iff_decode_fails_witness :
    (demoManager.Update 64 ⟨0⟩ tampered "abc" 3600).ret =
      (none, some ⟨"securecookie: the value is not valid"⟩) :=
  (update_error_iff_decode_fails demoManager 64 ⟨0⟩ tampered "abc" 3600).2
    ⟨[{ Name := "go_session_id", Value := "t1x" }]⟩ { Name := "go_session_id", Value := "t1x" }
    ⟨3⟩ ⟨"securecookie: the value is not valid"⟩ rfl (by decide) rfl rfl

/-- C9: on a request without a cookie of the configured name, Update returns
exactly what Create returns: no error and a handle with the given session ID
and expiry and an empty map; it writes no cookie and makes no codec call,
with or without a response writer. -/
theorem update_without_cookie_is_create (s : managerStore) (bits : Nat) (now : Time)
    (ctx : Context) (sid : String) (expired : Int) (req : Request)
    (hreq : FromReqContext ctx = some req)
    (hno : ∀ c ∈ req.cookies, c.Name ≠ s.opts.cookieName) :
    s.Update bits now ctx sid expired = s.Create ctx sid expired ∧
    (s.Update bits now ctx sid expired).ret.2 = none ∧
    (∃ h, (s.Update bits now ctx sid expired).ret.1 = some h ∧ h.SessionID = sid ∧
      h.expired = expired ∧ h.Context = ctx ∧ h.values = [] ∧ ∀ k, h.Get k = ("", false)) ∧
    written (s.Update bits now ctx sid expired).calls = [] ∧
    codecInvoked (s.Update bits now ctx sid expired).calls = false := by
  rw [update_no_cookie s bits now ctx sid expired req hreq
    (request_cookie_none req s.opts.cookieName hno)]
  refine ⟨rfl, rfl, ⟨_, rfl, rfl, rfl, rfl, rfl, fun k => rfl⟩, rfl, rfl⟩

/-- An instance of C9: a first contact, the request carrying no cookie. -/
theorem update_without_cookie_is_create_witness :
    demoManager.Update 64 ⟨0⟩ firstContact "abc" 3600 = demoManager.Create firstContact "abc" 3600 ∧
    (demoManager.Update 64 ⟨0⟩ firstContact "abc" 3600).ret.2 = none ∧
    (∃ h, (demoManager.Update 64 ⟨0⟩ firstContact "abc" 3600).ret.1 = some h ∧
      h.SessionID = "abc" ∧ h.expired = 3600 ∧ h.Context = firstContact ∧ h.values = [] ∧
      ∀ k, h.Get k = ("", false)) ∧
    written (demoManager.Update 64 ⟨0⟩ firstContact "abc" 3600).calls = [] ∧
    codecInvoked (demoManager.Update 64 ⟨0⟩ firstContact "abc" 3600).calls = false :=
  update_without_cookie_is_create demoManager 64 ⟨0⟩ firstContact "abc" 3600 ⟨[]⟩ rfl
    (by intro c hc; cases hc)

/-- C10: the handle's Delete returns what Get would have returned just before
(the stored value, or the empty string when the key is absent); afterwards
Get of that key reports not-found and Get of every other key is unchanged;
deleting an absent key leaves the handle as it was. -/
theorem handle_delete_returns_previous (s : store) (k : String) :
    (s.Delete k).1 = (s.Get k).1 ∧
    (∀ v, mapGet s.values k = some v → (s.Delete k).1 = v) ∧
    (mapGet s.values k = none → (s.Delete k).1 = "") ∧
    (s.Delete k).2.Get k = ("", false) ∧
    (∀ k', k' ≠ k → (s.Delete k).2.Get k' = s.Get k') ∧
    ((s.Get k).2 = false → (s.Delete k).2 = s) := by
  cases hg : mapGet s.values k with
  | none =>
    have hd : s.Delete k = ("", s) := by simp only [store.Delete, hg]
    have hget : s.Get k = ("", false) := by simp only [store.Get, hg]
    rw [hd, hget]
    refine ⟨rfl, ?_, fun _ => rfl, rfl, fun _ _ => rfl, fun _ => rfl⟩
    intro v hv
    cases hv
  | some v =>
    have hd : s.Delete k = (v, { s with values := mapDelete s.values k }) := by
      simp only [store.Delete, hg]
    have hget : s.Get k = (v, true) := by simp only [store.Get, hg]
    rw [hd, hget]
    refine ⟨rfl, ?_, ?_, ?_, ?_, ?_⟩
    · intro v' hv
      cases hv
      rfl
    · intro hv
      cases hv
    · simp only [store.Get, mapGet_mapDelete_self]
    · intro k' hne
      simp only [store.Get, mapGet_mapDelete_other s.values k k' hne]
    · intro hf
      cases hf

/-- An instance of C10: deleting uid from a handle that holds uid and lang. -/
theorem handle_delete_returns_previous_witness :
    (fullHandle.Delete "uid").1 = "42" ∧ (fullHandle.Delete "uid").2.Get "uid" = ("", false) ∧
    (fullHandle.Delete "uid").2.Get "lang" = ("en", true) :=
  ⟨(handle_delete_returns_previous fullHandle "uid").2.1 "42" (by decide),
   (handle_delete_returns_previous fullHandle "uid").2.2.2.1,
   ((handle_delete_returns_previous fullHandle "uid").2.2.2.2.1 "lang" (by decide)).trans
     (by decide)⟩

/-- C8: Flush empties the map, so that Get reports not-found for every key,
whether the commit fails or not; what Flush returns is what Save returns on
the emptied handle; with a response writer and a successful encode it writes
one cookie whose value is the token of the empty map, and under a codec that
round-trips that token decodes to a map without entries. -/
theorem flush_empties_then_saves (s : store) (bits : Nat) (now : Time) :
    (s.Flush bits now).1 = { s with values := [] } ∧
    (∀ k, (s.Flush bits now).1.Get k = ("", false)) ∧
    (s.Flush bits now).2 = ({ s with values := [] } : store).Save bits now ∧
    (∀ res token, FromResContext s.Context = some res →
      s.cookie.Encode s.sid [] = .ok token →
      (s.Flush bits now).2.ret = none ∧
      (∃ c, written (s.Flush bits now).2.calls = [c] ∧ c.Value = token ∧
        c.Name = s.opts.cookieName) ∧
      (RoundTrips s.cookie →
        ∃ r, s.cookie.Decode s.sid token = .ok r ∧ ∀ k, mapGet (r.getD []) k = none)) := by
  refine ⟨rfl, fun k => rfl, rfl, ?_⟩
  intro res token hres he
  have hsave := save_written ({ s with values := [] } : store) bits now token res he hres
  have hflush : (s.Flush bits now).2 = ({ s with values := [] } : store).Save bits now := rfl
  rw [hflush, hsave]
  refine ⟨rfl, ⟨_, rfl, rfl, rfl⟩, ?_⟩
  intro hrt
  obtain ⟨r, hr, hk⟩ := hrt s.sid [] token he
  exact ⟨r, hr, fun k => (hk k).trans rfl⟩

/-- An instance of C8: flushing a handle that holds two entries. -/
theorem flush_empties_then_saves_witness :
    (fullHandle.Flush 64 ⟨0⟩).2.ret = none ∧
    (∃ c, written (fullHandle.Flush 64 ⟨0⟩).2.calls = [c] ∧ c.Value = "t0" ∧
      c.Name = fullHandle.opts.cookieName) ∧
    (∃ r, fullHandle.cookie.Decode fullHandle.sid "t0" = .ok r ∧
      ∀ k, mapGet (r.getD []) k = none) :=
  ⟨((flush_empties_then_saves fullHandle 64 ⟨0⟩).2.2.2 ⟨1⟩ "t0" rfl rfl).1,
   ((flush_empties_then_saves fullHandle 64 ⟨0⟩).2.2.2 ⟨1⟩ "t0" rfl rfl).2.1,
   ((flush_empties_then_saves fullHandle 64 ⟨0⟩).2.2.2 ⟨1⟩ "t0" rfl rfl).2.2
     tableCodec_roundTrips⟩

/-- C4, as stated, fails: a handle without response writer whose map the
codec refuses to encode gets the codec's error from Save. -/
theorem save_without_response_encode_error :
    FromResContext unencodable.Context = none ∧
    (unencodable.Save 64 ⟨0⟩).ret = some ⟨"securecookie: the value is too long"⟩ := by
  decide

/-- C4, amended: Save returns an error exactly when the codec fails to encode
the session ID and map; it then returns the codec's error and writes no
cookie.  Without a response writer Save writes nothing, and returns no error
whenever the encode succeeds; the encode is then its only call. -/
theorem save_error_iff_encode_fails (s : store) (bits : Nat) (now : Time) :
    ((s.Save bits now).ret ≠ none ↔ ∃ err, s.cookie.Encode s.sid s.values = .error err) ∧
    (∀ err, s.cookie.Encode s.sid s.values = .error err →
      (s.Save bits now).ret = some err ∧ written (s.Save bits now).calls = []) ∧
    (FromResContext s.Context = none →
      written (s.Save bits now).calls = [] ∧
      ∀ encoded, s.cookie.Encode s.sid s.values = .ok encoded →
        (s.Save bits now).ret = none ∧
        (s.Save bits now).calls = [Event.encode s.sid s.values]) := by
  cases he : s.cookie.Encode s.sid s.values with
  | error err =>
    rw [save_encode_error s bits now err he]
    refine ⟨⟨fun _ => ⟨err, rfl⟩, fun _ => by simp⟩, ?_, fun _ => ⟨rfl, ?_⟩⟩
    · intro e h
      cases h
      exact ⟨rfl, rfl⟩
    · intro encoded h
      cases h
  | ok encoded =>
    cases hres : FromResContext s.Context with
    | none =>
      rw [save_no_response s bits now encoded he hres]
      refine ⟨⟨fun h => absurd rfl h, ?_⟩, ?_, fun _ => ⟨rfl, fun _ _ => ⟨rfl, rfl⟩⟩⟩
      · rintro ⟨e, h⟩
        cases h
      · intro e h
        cases h
    | some res =>
      rw [save_written s bits now encoded res he hres]
      refine ⟨⟨fun h => absurd rfl h, ?_⟩, ?_, ?_⟩
      · rintro ⟨e, h⟩
        cases h
      · intro e h
        cases h
      · intro h
        cases h

/-- An instance of amended C4: the error of the table codec comes back from
Save and nothing is written. -/
theorem save_error_iff_encode_fails_witness :
    (unencodable.Save 64 ⟨0⟩).ret = some ⟨"securecookie: the value is too long"⟩ ∧
    written (unencodable.Save 64 ⟨0⟩).calls = [] :=
  (save_error_iff_encode_fails unencodable 64 ⟨0⟩).2.1
    ⟨"securecookie: the value is too long"⟩ rfl

/-- C5, as stated, fails: the far expiry is an int64, yet the cookie Save
writes for it expires about 292 years before the call, not that many seconds
after it. -/
theorem save_far_expiry_wraps :
    fitsSigned 64 farExpiry ∧
    FromResContext farHandle.Context = some ⟨1⟩ ∧
    farHandle.cookie.Encode farHandle.sid farHandle.values = .ok "t0" ∧
    written (farHandle.Save 64 ⟨0⟩).calls =
      [{ Name := "go_session_id", Value := "t0", Path := "/", Secure := false, HttpOnly := true,
         MaxAge := 9223372037, Expires := ⟨-9223372036709551616⟩ }] ∧
    written (farHandle.Save 64 ⟨0⟩).calls ≠
      [{ Name := farHandle.opts.cookieName, Value := "t0", Path := "/",
         Secure := farHandle.opts.secure, HttpOnly := true, MaxAge := farHandle.expired,
         Expires := (Time.mk 0).Add (farHandle.expired * Second) }] := by
  refine ⟨by decide, rfl, rfl, ?_, ?_⟩ <;> decide

/-- C5, amended: for a handle whose expiry fits the int of the target and
whose expiry in nanoseconds fits an int64, whose context has a response
writer and whose encode succeeds, Save returns no error and writes exactly
one cookie: configured name, the token as value, path /, the configured
secure flag, HttpOnly, MaxAge the expiry and Expires the time of the call
plus expiry seconds.  Save only reads the handle: it yields no new handle. -/
theorem save_writes_session_cookie (s : store) (bits : Nat) (now : Time)
    (res : ResponseWriter) (encoded : String)
    (hbits : 0 < bits) (hint : fitsSigned bits s.expired) (hdur : durationFits s.expired)
    (hres : FromResContext s.Context = some res)
    (he : s.cookie.Encode s.sid s.values = .ok encoded) :
    (s.Save bits now).ret = none ∧
    written (s.Save bits now).calls =
      [{ Name := s.opts.cookieName, Value := encoded, Path := "/", Secure := s.opts.secure,
         HttpOnly := true, MaxAge := s.expired, Expires := now.Add (s.expired * Second) }] := by
  rw [save_written s bits now encoded res he hres, goInt_of_fits bits s.expired hbits hint,
    secondsDuration_of_fits s.expired hdur]
  exact ⟨rfl, rfl⟩

/-- An instance of amended C5: an hour's expiry on a 64-bit target. -/
theorem save_writes_session_cookie_witness :
    (({ farHandle with expired := 3600 } : store).Save 64 ⟨5⟩).ret = none ∧
    written (({ farHandle with expired := 3600 } : store).Save 64 ⟨5⟩).calls =
      [{ Name := "go_session_id", Value := "t0", Path := "/", Secure := false,
         HttpOnly := true, MaxAge := 3600, Expires := (Time.mk 5).Add (3600 * Second) }] :=
  save_writes_session_cookie ({ farHandle with expired := 3600 } : store) 64 ⟨5⟩ ⟨1⟩ "t0"
    (by decide) (by decide) (by decide) rfl rfl

/-- C3, as stated, fails: renewing with the far expiry writes a cookie that
expires about 292 years before the call. -/
theorem update_far_expiry_wraps :
    written (demoManager.Update 64 ⟨0⟩ returning "abc" farExpiry).calls =
      [{ Name := "go_session_id", Value := "t1", MaxAge := 9223372037,
         Expires := ⟨-9223372036709551616⟩ }] ∧
    written (demoManager.Update 64 ⟨0⟩ returning "abc" farExpiry).calls ≠
      [{ Name := "go_session_id", Value := "t1", MaxAge := farExpiry,
         Expires := (Time.mk 0).Add (farExpiry * Second) }] := by
  refine ⟨?_, ?_⟩ <;> decide

/-- C3, amended: for an expiry that fits the int of the target and whose
count of nanoseconds fits an int64, on a context with a request carrying the
session cookie and a response writer, Update writes exactly one cookie, the
inbound one with MaxAge the expiry and Expires the time of the call plus
expiry seconds, and it does so before calling Decode: the write is made
whether Decode then succeeds or fails. -/
theorem update_renews_before_decode (s : managerStore) (bits : Nat) (now : Time)
    (ctx : Context) (sid : String) (expired : Int) (req : Request) (cookie : Cookie)
    (res : ResponseWriter)
    (hbits : 0 < bits) (hint : fitsSigned bits expired) (hdur : durationFits expired)
    (hreq : FromReqContext ctx = some req)
    (hc : req.Cookie s.opts.cookieName = some cookie)
    (hres : FromResContext ctx = some res) :
    (s.Update bits now ctx sid expired).calls =
      [Event.setCookie res
          { cookie with Expires := now.Add (expired * Second), MaxAge := expired },
        Event.decode sid cookie.Value] ∧
    written (s.Update bits now ctx sid expired).calls =
      [{ Name := cookie.Name, Value := cookie.Value, Path := cookie.Path,
         Secure := cookie.Secure, HttpOnly := cookie.HttpOnly,
         MaxAge := expired, Expires := now.Add (expired * Second) }] ∧
    (∀ err, s.cookie.Decode sid cookie.Value = .error err →
      (s.Update bits now ctx sid expired).ret = (none, some err)) := by
  cases hd : s.cookie.Decode sid cookie.Value with
  | error err =>
    rw [update_decode_error s bits now ctx sid expired req cookie res err hreq hc hres hd,
      goInt_of_fits bits expired hbits hint, secondsDuration_of_fits expired hdur]
    refine ⟨rfl, rfl, ?_⟩
    intro e h
    cases h
    rfl
  | ok decoded =>
    rw [update_decode_ok s bits now ctx sid expired req cookie res decoded hreq hc hres hd,
      goInt_of_fits bits expired hbits hint, secondsDuration_of_fits expired hdur]
    refine ⟨rfl, rfl, ?_⟩
    intro e h
    cases h

/-- An instance of amended C3 on a corrupted token: the renewal is written
and Update returns the codec's error. -/
theorem update_renews_before_decode_witness :
    (demoManager.Update 64 ⟨5⟩ tampered "abc" 3600).calls =
      [Event.setCookie ⟨3⟩
          { Name := "go_session_id", Value := "t1x", MaxAge := 3600,
            Expires := (Time.mk 5).Add (3600 * Second) },
        Event.decode "abc" "t1x"] ∧
    (demoManager.Update 64 ⟨5⟩ tampered "abc" 3600).ret =
      (none, some ⟨"securecookie: the value is not valid"⟩) :=
  ⟨(update_renews_before_decode demoManager 64 ⟨5⟩ tampered "abc" 3600
      ⟨[{ Name := "go_session_id", Value := "t1x" }]⟩ { Name := "go_session_id", Value := "t1x" }
      ⟨3⟩ (by decide) (by decide) (by decide) rfl (by decide) rfl).1,
   (update_renews_before_decode demoManager 64 ⟨5⟩ tampered "abc" 3600
      ⟨[{ Name := "go_session_id", Value := "t1x" }]⟩ { Name := "go_session_id", Value := "t1x" }
      ⟨3⟩ (by decide) (by decide) (by decide) rfl (by decide) rfl).2.2
      ⟨"securecookie: the value is not valid"⟩ rfl⟩

/-- C7, as stated, fails: the clearing cookie expires at the time of the
call, not before it. -/
theorem manager_delete_expires_now :
    (demoManager.Check returning "abc").ret = (true, none) ∧
    FromResContext returning = some ⟨2⟩ ∧
    written (demoManager.Delete ⟨1000⟩ returning "abc").calls =
      [{ Name := "go_session_id", Path := "/", HttpOnly := true, MaxAge := -1,
         Expires := ⟨1000⟩ }] ∧
    ∀ c ∈ written (demoManager.Delete ⟨1000⟩ returning "abc").calls,
      ¬ c.Expires.Before ⟨1000⟩ := by
  refine ⟨by decide, rfl, ?_, ?_⟩ <;> decide

/-- C7, amended: when Check reports the session cookie present and there is a
response writer, the manager's Delete writes exactly one cookie: configured
name, empty value, path /, HttpOnly, MaxAge -1 and Expires the time of the
call itself (no earlier instant); the cookie mentions neither the inbound
cookie's value nor the session ID, and no codec call is made.  When the
cookie is absent or there is no response writer, Delete writes nothing. -/
theorem manager_delete_clears_cookie (s : managerStore) (now : Time) (ctx : Context)
    (sid : String) :
    (∀ res, (s.Check ctx sid).ret.1 = true → FromResContext ctx = some res →
      (s.Delete now ctx sid).calls =
        [Event.setCookie res
          { Name := s.opts.cookieName, Value := "", Path := "/", Secure := false,
            HttpOnly := true, MaxAge := -1, Expires := now }]) ∧
    ((s.Check ctx sid).ret.1 = false ∨ FromResContext ctx = none →
      (s.Delete now ctx sid).calls = []) ∧
    codecInvoked (s.Delete now ctx sid).calls = false ∧
    (∀ c ∈ written (s.Delete now ctx sid).calls, c.Expires = now ∧ ¬ c.Expires.Before now) := by
  refine ⟨?_, ?_, ?_, ?_⟩
  · intro res hpres hres
    rw [delete_written s now ctx sid res hpres hres]
  · rintro (habs | hres)
    · rw [delete_absent s now ctx sid habs]
    · rw [delete_no_response s now ctx sid hres]
  · rcases delete_cases s now ctx sid with h | ⟨res, _, _, h⟩ <;> rw [h] <;> rfl
  · rcases delete_cases s now ctx sid with h | ⟨res, _, _, h⟩ <;> rw [h]
    · intro c hc
      cases hc
    · intro c hc
      simp only [written, List.mem_singleton] at hc
      subst hc
      exact ⟨rfl, lt_irrefl now.nsec⟩

/-- An instance of amended C7: deleting on a request that presents the cookie. -/
theorem manager_delete_clears_cookie_witness :
    (demoManager.Delete ⟨1000⟩ returning "abc").calls =
      [Event.setCookie ⟨2⟩
        { Name := "go_session_id", Value := "", Path := "/", Secure := false,
          HttpOnly := true, MaxAge := -1, Expires := ⟨1000⟩ }] :=
  (manager_delete_clears_cookie demoManager ⟨1000⟩ returning "abc").1 ⟨2⟩ (by decide) rfl

/-- C6, as stated, fails: after a deletion that succeeded and wrote the
clearing cookie, Check on the same context still reports true. -/
theorem check_after_delete_still_true :
    (demoManager.Delete ⟨1000⟩ returning "abc").ret = none ∧
    (written (demoManager.Delete ⟨1000⟩ returning "abc").calls).length = 1 ∧
    (demoManager.Delete ⟨2000⟩ returning "abc").ret = none ∧
    (demoManager.Check returning "abc").ret = (true, none) := by
  decide

/-- C6, amended: the manager's Delete returns no error, on every context and
for every session ID, the first time and the second; Check never returns an
error and reports false exactly when the context has no request or its
request carries no cookie of the configured name, as on a later request that
no longer presents the cookie. -/
theorem manager_delete_idempotent (s : managerStore) (now₁ now₂ : Time) (ctx : Context)
    (sid : String) :
    (s.Delete now₁ ctx sid).ret = none ∧ (s.Delete now₂ ctx sid).ret = none ∧
    (s.Check ctx sid).ret.2 = none ∧
    ((s.Check ctx sid).ret.1 = false ↔
      ∀ req, FromReqContext ctx = some req → req.Cookie s.opts.cookieName = none) ∧
    (∀ ctx' req', FromReqContext ctx' = some req' →
      (∀ c ∈ req'.cookies, c.Name ≠ s.opts.cookieName) →
      (s.Check ctx' sid).ret = (false, none)) := by
  refine ⟨?_, ?_, (check_ret s ctx sid).2.1, ?_, ?_⟩
  · rcases delete_cases s now₁ ctx sid with h | ⟨res, _, _, h⟩ <;> rw [h]
  · rcases delete_cases s now₂ ctx sid with h | ⟨res, _, _, h⟩ <;> rw [h]
  · have hiff := (check_ret s ctx sid).2.2
    constructor
    · intro hf req hreq
      cases hc : req.Cookie s.opts.cookieName with
      | none => rfl
      | some c =>
        have : (s.Check ctx sid).ret.1 = true := hiff.2 ⟨req, c, hreq, hc⟩
        rw [hf] at this
        cases this
    · intro hall
      cases hb : (s.Check ctx sid).ret.1 with
      | false => rfl
      | true =>
        obtain ⟨req, c, hreq, hc⟩ := hiff.1 hb
        rw [hall req hreq] at hc
        cases hc
  · intro ctx' req' hreq' hno
    have hnone := request_cookie_none req' s.opts.cookieName hno
    simp only [managerStore.Check, hreq', hnone, Option.isSome_none]

/-- An instance of amended C6: on a request without cookies both deletions
succeed and Check reports false. -/
theorem manager_delete_idempotent_witness :
    (demoManager.Delete ⟨1000⟩ firstContact "abc").ret = none ∧
    (demoManager.Delete ⟨2000⟩ firstContact "abc").ret = none ∧
    (demoManager.Check firstContact "abc").ret = (false, none) :=
  ⟨(manager_delete_idempotent demoManager ⟨1000⟩ ⟨2000⟩ firstContact "abc").1,
   (manager_delete_idempotent demoManager ⟨1000⟩ ⟨2000⟩ firstContact "abc").2.1,
   (manager_delete_idempotent demoManager ⟨1000⟩ ⟨2000⟩ firstContact "abc").2.2.2.2
     firstContact ⟨[]⟩ rfl (by intro c hc; cases hc)⟩

/-- C2: under a codec that round-trips, take the handle Create returns for
session S on a context with a response writer, Set k to v on it and Save it
without error; then on any new context that has a response writer and whose
request presents, under the configured name, the value of the cookie Save
wrote, Update for S returns a handle and no error, and Get k on that handle
returns v and found. -/
theorem save_then_update_restores (m : managerStore) (bits : Nat) (now now' : Time)
    (ctx ctx' : Context) (res res' : ResponseWriter) (req' : Request) (S : String)
    (e e' : Int) (k v : String) (h : store) (saved inbound : Cookie)
    (hrt : RoundTrips m.cookie)
    (hres : FromResContext ctx = some res)
    (hcreate : (m.Create ctx S e).ret = (some h, none))
    (hsave : ((h.Set k v).Save bits now).ret = none)
    (hwrote : saved ∈ written ((h.Set k v).Save bits now).calls)
    (hreq' : FromReqContext ctx' = some req')
    (hpresent : req'.Cookie m.opts.cookieName = some inbound)
    (hvalue : inbound.Value = saved.Value)
    (hres' : FromResContext ctx' = some res') :
    written ((h.Set k v).Save bits now).calls = [saved] ∧
    inbound.Name = saved.Name ∧
    ∃ h', (m.Update bits now' ctx' S e').ret = (some h', none) ∧ h'.Get k = (v, true) := by
  have hh : h = { opts := m.opts, ctx := ctx, sid := S, cookie := m.cookie, expired := e,
                  values := [] } := by
    simp only [managerStore.Create, Prod.mk.injEq, Option.some.injEq, and_true] at hcreate
    exact hcreate.symm
  subst hh
  cases he : m.cookie.Encode S (mapSet [] k v) with
  | error err =>
    rw [save_encode_error _ bits now err he] at hsave
    cases hsave
  | ok token =>
    have hs := save_written
      (store.Set { opts := m.opts, ctx := ctx, sid := S, cookie := m.cookie, expired := e,
                   values := [] } k v) bits now token res he hres
    rw [hs] at hwrote ⊢
    simp only [written, List.mem_singleton] at hwrote
    subst hwrote
    obtain ⟨r, hr, hk⟩ := hrt S (mapSet [] k v) token he
    have hd : m.cookie.Decode S inbound.Value = .ok r := by rw [hvalue]; exact hr
    refine ⟨rfl, (request_cookie_name req' m.opts.cookieName inbound hpresent).1, ?_⟩
    rw [update_decode_ok m bits now' ctx' S e' req' inbound res' r hreq' hpresent hres' hd]
    refine ⟨_, rfl, ?_⟩
    have hget : mapGet (r.getD []) k = some v := (hk k).trans (mapGet_mapSet_self [] k v)
    simp only [store.Get, hget]

/-- An instance of C2: session abc, expiry 3600 both times, uid set to 42. -/
theorem save_then_update_restores_witness :
    written (((⟨demoManager.opts, "abc", firstContact, 3600, [], tableCodec⟩ : store).Set
      "uid" "42").Save 64 ⟨0⟩).calls =
      [{ Name := "go_session_id", Value := "t1", Path := "/", HttpOnly := true, MaxAge := 3600,
         Expires := (Time.mk 0).Add (3600 * Second) }] ∧
    ({ Name := "go_session_id", Value := "t1" } : Cookie).Name = "go_session_id" ∧
    ∃ h', (demoManager.Update 64 ⟨7⟩ returning "abc" 3600).ret = (some h', none) ∧
      h'.Get "uid" = ("42", true) :=
  save_then_update_restores demoManager 64 ⟨0⟩ ⟨7⟩ firstContact returning ⟨1⟩ ⟨2⟩
    ⟨[{ Name := "go_session_id", Value := "t1" }]⟩ "abc" 3600 3600 "uid" "42"
    ⟨demoManager.opts, "abc", firstContact, 3600, [], tableCodec⟩
    { Name := "go_session_id", Value := "t1", Path := "/", HttpOnly := true, MaxAge := 3600,
      Expires := (Time.mk 0).Add (3600 * Second) }
    { Name := "go_session_id", Value := "t1" }
    tableCodec_roundTrips rfl rfl (by decide) (by decide) rfl (by decide) rfl rfl

end CookieStore
